import Mathlib

/-!
Shallow embedding of `huey/backends/redis_backend.py` (the Redis backend of
the huey task queue): name sanitisation, the queue (Redis list), the
blocking queue, the schedule (Redis sorted set plus the `SCHEDULE_POP_LUA`
script), and the result data store (Redis hash).  Payloads, members and
keys are modelled as `String`; scores (unix timestamps) as `Int`.
-/

/-- Character class `[a-z0-9]` of the regular expression in `clean_name`. -/
def isNameChar (c : Char) : Bool :=
  ('a' ≤ c && c ≤ 'z') || ('0' ≤ c && c ≤ '9')

/-- Embeds `clean_name(name) = re.sub('[^a-z0-9]', '', name)`: every
character outside `[a-z0-9]` is deleted. -/
def clean_name (name : String) : String :=
  String.mk (name.data.filter isNameChar)

/-- Embeds `RedisQueue.__init__`: `self.queue_name = 'huey.redis.%s' % clean_name(name)`. -/
def RedisQueue.queue_name (name : String) : String :=
  "huey.redis." ++ clean_name name

/-- Embeds `RedisSchedule.__init__`: `self.key = 'huey.schedule.%s' % clean_name(name)`. -/
def RedisSchedule.key (name : String) : String :=
  "huey.schedule." ++ clean_name name

/-- Embeds `RedisDataStore.__init__`: `self.storage_name = 'huey.results.%s' % clean_name(name)`. -/
def RedisDataStore.storage_name (name : String) : String :=
  "huey.results." ++ clean_name name

/-- Modelled from the spec: `RedisEventEmitter.__init__` keeps
`self.channel` as set by `BaseEventEmitter.__init__` in
`huey/backends/base.py`, which is not under `src/`; per the spec, "the
event emitter uses the raw channel name unmodified". -/
def RedisEventEmitter.channel (name : String) : String := name

/-- The spec's words for the physical naming convention: every channel name
is `<namespace>.<kind>.<sanitized-name>`, the namespace being `huey`. -/
def specPhysicalName (kind : String) (name : String) : String :=
  "huey." ++ kind ++ "." ++ clean_name name

/-! ## Queue (Redis list)

A Redis list is a `List String` whose head is the left end.  `RedisQueue`
writes with `LPUSH` and reads with `RPOP`; `remove` calls redis-py 2.x
`lrem(name, value, num=0)`, and `LREM` with count `0` removes every
element equal to the value, returning how many were removed. -/

/-- Redis `LPUSH`: prepend at the left end. -/
def lpush (data : String) (q : List String) : List String := data :: q

/-- Redis `RPOP`: remove and return the rightmost element (`nil` when empty). -/
def rpop (q : List String) : Option String × List String :=
  (q.getLast?, q.dropLast)

/-- Redis `LREM key 0 value`: remove all elements equal to `value`;
returns the number removed and the remaining list. -/
def lrem (value : String) (q : List String) : Nat × List String :=
  ((q.filter (fun x => x == value)).length, q.filter (fun x => x != value))

/-- Embeds `RedisQueue.write(data)`: `self.conn.lpush(self.queue_name, data)`. -/
def RedisQueue.write (data : String) (q : List String) : List String :=
  lpush data q

/-- Embeds `RedisQueue.read()`: `return self.conn.rpop(self.queue_name)`. -/
def RedisQueue.read (q : List String) : Option String × List String :=
  rpop q

/-- Embeds `RedisQueue.remove(data)`: `return self.conn.lrem(self.queue_name, data)`;
under the redis-py 2.x signature `lrem(name, value, num=0)` this is
`LREM key 0 data`, removing every occurrence. -/
def RedisQueue.remove (data : String) (q : List String) : Nat × List String :=
  lrem data q

/-- Writes a whole list of payloads in order, each through `RedisQueue.write`. -/
def writeAll (ds : List String) (q : List String) : List String :=
  ds.foldl (fun acc d => RedisQueue.write d acc) q

/-- Performs `n` successive `RedisQueue.read` calls, collecting the results. -/
def readMany : Nat → List String → List (Option String) × List String
  | 0, q => ([], q)
  | Nat.succ n, q =>
      let r := RedisQueue.read q
      let rest := readMany n r.2
      (r.1 :: rest.1, rest.2)

/-! ## Blocking queue

Embeds `RedisBlockingQueue.read`.  `conn.brpop(queue_name, timeout)`
either returns a `(key, value)` pair, returns `None` when the timeout
elapses with no data, or raises `ConnectionError` when the store becomes
unreachable during the wait.  The Python body subscripts the result with
`[1]`, so the `None` of a timeout raises `TypeError`; the `except
(ConnectionError, TypeError, IndexError)` clause converts all of these to
the return value `None`. -/

/-- Result of the underlying `BRPOP` call on one blocking read. -/
inductive BrpopOutcome where
  | popped (key : String) (value : String)
  | timedOut
  | connectionLost

/-- Python exceptions the `try` block of `RedisBlockingQueue.read` can raise. -/
inductive PyExc where
  | connectionError
  | typeError
  | indexError

/-- Body of the `try` block: `self.conn.brpop(self.queue_name, timeout=...)[1]`.
A timeout makes `brpop` return `None`, and `None[1]` raises `TypeError`;
an unreachable store raises `ConnectionError` out of `brpop` itself. -/
def brpopSubscript : BrpopOutcome → Except PyExc String
  | .popped _ v => .ok v
  | .timedOut => .error .typeError
  | .connectionLost => .error .connectionError

/-- Embeds `RedisBlockingQueue.read()`: the `try` body with the
`except (ConnectionError, TypeError, IndexError): return None` handler. -/
def RedisBlockingQueue.read (r : BrpopOutcome) : Except PyExc (Option String) :=
  match brpopSubscript r with
  | .ok v => .ok (some v)
  | .error .connectionError => .ok none
  | .error .typeError => .ok none
  | .error .indexError => .ok none

/-! ## Schedule (Redis sorted set and the Lua pop script)

A Redis sorted set is modelled as a list of `(score, member)` pairs kept
ordered by score (ties by member), with pairwise-distinct members.
`ZADD` replaces any existing entry for the member and inserts at the
ordered position; `ZRANGEBYSCORE key -inf ts` lists the members with
score ≤ ts; `ZREMRANGEBYSCORE key -inf ts` deletes them, returning how
many were deleted. -/

/-- State of a Redis sorted set: `(score, member)` pairs. -/
abbrev ZSet : Type := List (Int × String)

/-- Ordered insertion of one `(score, member)` pair (score first, member
lexicographically on ties), as `ZADD` places a new entry. -/
def zinsert (e : Int × String) : ZSet → ZSet
  | [] => [e]
  | x :: xs =>
      if e.1 < x.1 ∨ (e.1 = x.1 ∧ ¬ x.2 < e.2) then e :: x :: xs
      else x :: zinsert e xs

/-- Redis `ZADD key score member`: any existing entry of `member` is
replaced, and the pair is placed at its ordered position. -/
def zadd (s : ZSet) (member : String) (score : Int) : ZSet :=
  zinsert (score, member) (List.filter (fun e => e.2 != member) s)

/-- Redis `ZRANGEBYSCORE key -inf ts`: the members with score ≤ `ts`, in
set order. -/
def zrangebyscore (s : ZSet) (ts : Int) : List String :=
  (List.filter (fun e => e.1 ≤ ts) s).map Prod.snd

/-- Redis `ZREMRANGEBYSCORE key -inf ts`: deletes every entry with score
≤ `ts`; returns the number deleted and the remaining set. -/
def zremrangebyscore (s : ZSet) (ts : Int) : Nat × ZSet :=
  ((List.filter (fun e => e.1 ≤ ts) s).length,
   List.filter (fun e => !(e.1 ≤ ts : Bool)) s)

/-- Embeds the Lua script `SCHEDULE_POP_LUA`, executed atomically by the
server: `res = zrangebyscore(key, -inf, unix_ts)`, then
`zremrangebyscore(key, -inf, unix_ts)` (the deletion happens in the `if`
condition, so it runs in either case); the collected `res` is returned
only when the deleted count equals `#res`, otherwise the script returns
`nil`. -/
def SCHEDULE_POP_LUA (s : ZSet) (unix_ts : Int) : Option (List String) × ZSet :=
  let res := zrangebyscore s unix_ts
  let removed := zremrangebyscore s unix_ts
  if removed.1 = res.length then (some res, removed.2) else (none, removed.2)

/-- Python side of the script result: `return [] if tasks is None else tasks`. -/
def pyNoneToEmptyList : Option (List String) → List String
  | none => []
  | some l => l

/-- A Python `datetime`: epoch seconds of its `timetuple()` plus the
microsecond part that `timetuple()` discards. -/
structure PyDatetime where
  sec : Int
  usec : Nat
deriving DecidableEq

/-- Embeds `RedisSchedule.convert_ts(ts) = time.mktime(ts.timetuple())`:
the whole-second epoch value of the datetime (microseconds dropped). -/
def convert_ts (ts : PyDatetime) : Int := ts.sec

/-- Embeds `RedisSchedule.add(data, ts)`:
`self.conn.zadd(self.key, data, self.convert_ts(ts))`. -/
def RedisSchedule.add (s : ZSet) (data : String) (ts : PyDatetime) : ZSet :=
  zadd s data (convert_ts ts)

/-- Embeds `RedisSchedule.read(ts)`: converts the timestamp, invokes the
atomic `SCHEDULE_POP_LUA` script, and maps a `nil` script result to `[]`. -/
def RedisSchedule.read (ts : PyDatetime) (s : ZSet) : List String × ZSet :=
  let p := SCHEDULE_POP_LUA s (convert_ts ts)
  (pyNoneToEmptyList p.1, p.2)

/-- The schedule state built by `RedisSchedule.add`-ing each `(payload,
due-timestamp)` item in order, starting from the empty sorted set. -/
def schedState (items : List (String × PyDatetime)) : ZSet :=
  items.foldl (fun acc it => RedisSchedule.add acc it.1 it.2) []

/-! ## DataStore (Redis hash)

A Redis hash is a finite map from field names to values, modelled as a
function `String → Option String`.  `HSET` sets a field, `HEXISTS` and
`HGET` inspect it, `HDEL` deletes it.  The `EmptyData` sentinel of
`huey.utils` (not under `src/`) is modelled from the spec as the
distinguished `none`: "a special marker value denotes 'no entry' and is
distinguishable from any real (including empty) stored value"; a stored
empty payload is `some ""`, never `none`. -/

/-- State of a Redis hash. -/
abbrev Hash : Type := String → Option String

/-- The hash with no fields. -/
def emptyHash : Hash := fun _ => none

/-- Redis `HSET key field value`. -/
def hset (h : Hash) (field value : String) : Hash :=
  fun f => if f = field then some value else h f

/-- Redis `HGET key field` (`nil` when absent). -/
def hget (h : Hash) (field : String) : Option String := h field

/-- Redis `HEXISTS key field`. -/
def hexists (h : Hash) (field : String) : Bool := (h field).isSome

/-- Redis `HDEL key field`. -/
def hdel (h : Hash) (field : String) : Hash :=
  fun f => if f = field then none else h f

/-- Embeds `RedisDataStore.put(key, value)`: `self.conn.hset(self.storage_name, key, value)`. -/
def RedisDataStore.put (h : Hash) (key value : String) : Hash :=
  hset h key value

/-- Embeds `RedisDataStore.peek(key)`: `hget` when `hexists`, else the
`EmptyData` sentinel (modelled as `none`). -/
def RedisDataStore.peek (h : Hash) (key : String) : Option String :=
  if hexists h key then hget h key else none

/-- Embeds `RedisDataStore.get(key)`: `val = self.peek(key)`; when `val is
not EmptyData` the field is deleted with `hdel`; `val` is returned. -/
def RedisDataStore.get (h : Hash) (key : String) : Option String × Hash :=
  let val := RedisDataStore.peek h key
  match val with
  | some v => (some v, hdel h key)
  | none => (none, h)

/-! ## Lemmas and claim theorems -/

lemma writeAll_eq (ds : List String) (q : List String) :
    writeAll ds q = ds.reverse ++ q := by
  induction ds generalizing q with
  | nil => simp [writeAll]
  | cons d rest ih =>
      have hstep : writeAll (d :: rest) q = writeAll rest (d :: q) := rfl
      rw [hstep, ih]
      simp

lemma readMany_reverse (ds : List String) :
    readMany ds.length ds.reverse = (ds.map some, []) := by
  induction ds with
  | nil => simp [readMany]
  | cons d rest ih =>
      have hlast : (rest.reverse ++ [d]).getLast? = some d := by
        simp [List.getLast?_append]
      have hdrop : (rest.reverse ++ [d]).dropLast = rest.reverse := by
        simp
      simp [readMany, RedisQueue.read, rpop, hlast, hdrop, ih]

/-- C5: for every input string, `clean_name` is deterministic (it is a pure
function of its argument) and its output consists exclusively of lowercase
ASCII letters and decimal digits; the output is a subsequence of the input
(characters are only ever removed), and a character of the input survives
exactly when it lies in `[a-z0-9]`. -/
theorem clean_name_only_lower_alnum (s : String) :
    (∀ c ∈ (clean_name s).data, ('a' ≤ c ∧ c ≤ 'z') ∨ ('0' ≤ c ∧ c ≤ '9'))
    ∧ (clean_name s).data.Sublist s.data
    ∧ (clean_name s).data = s.data.filter isNameChar := by
  refine ⟨?_, ?_, rfl⟩
  · intro c hc
    have h := (List.mem_filter.mp hc).2
    simpa [isNameChar, Bool.or_eq_true, Bool.and_eq_true,
      decide_eq_true_eq] using h
  · exact List.filter_sublist _

/-- Witness for C5 at the concrete input `"Ab-c9"`. -/
theorem clean_name_only_lower_alnum_witness :
    (∀ c ∈ (clean_name "Ab-c9").data,
      ('a' ≤ c ∧ c ≤ 'z') ∨ ('0' ≤ c ∧ c ≤ '9'))
    ∧ (clean_name "Ab-c9").data.Sublist "Ab-c9".data
    ∧ (clean_name "Ab-c9").data = "Ab-c9".data.filter isNameChar :=
  clean_name_only_lower_alnum "Ab-c9"

/-- C10: `clean_name` is idempotent. -/
theorem clean_name_idempotent (s : String) :
    clean_name (clean_name s) = clean_name s := by
  simp [clean_name, List.filter_filter]

/-- C4 counterexample: the queue's physical key uses the kind component
`redis`, not `queue`: for the name `foo` the code produces
`huey.redis.foo`, which differs from the claimed `huey.queue.foo`. -/
theorem queue_name_kind_counterexample :
    RedisQueue.queue_name "foo" = "huey.redis.foo"
    ∧ RedisQueue.queue_name "foo" ≠ specPhysicalName "queue" "foo" := by
  constructor <;> decide

/-- C4 amended: every physical key is `<namespace>.<kind>.<sanitized-name>`
with namespace `huey` and kind component `redis` for Queue instances,
`schedule` for Schedule instances, and `results` for DataStore instances,
while the event emitter uses the raw channel name unmodified. -/
theorem physical_names_amended (name : String) :
    RedisQueue.queue_name name = specPhysicalName "redis" name
    ∧ RedisSchedule.key name = specPhysicalName "schedule" name
    ∧ RedisDataStore.storage_name name = specPhysicalName "results" name
    ∧ RedisEventEmitter.channel name = name := by
  refine ⟨?_, ?_, ?_, rfl⟩
  · rw [specPhysicalName, show ("huey." ++ "redis" ++ "." : String) = "huey.redis." from rfl]
    rfl
  · rw [specPhysicalName, show ("huey." ++ "schedule" ++ "." : String) = "huey.schedule." from rfl]
    rfl
  · rw [specPhysicalName, show ("huey." ++ "results" ++ "." : String) = "huey.results." from rfl]
    rfl

/-- C9: for every sequence of payloads written through `RedisQueue.write`
onto an empty queue and then read back by an equal number of
`RedisQueue.read` calls with no interleaving, the reads return the
payloads in exactly the order they were written (FIFO), leaving the queue
empty. -/
theorem queue_fifo (ds : List String) :
    readMany ds.length (writeAll ds []) = (ds.map some, []) := by
  rw [writeAll_eq]
  simpa using readMany_reverse ds

/-- C6 counterexample: on the queue `["a", "a"]`, `RedisQueue.remove "a"`
removes both occurrences (LREM with count 0), leaving `[]` rather than a
queue of length 1 as "removes exactly one occurrence" would require. -/
theorem remove_one_occurrence_counterexample :
    RedisQueue.remove "a" ["a", "a"] = (2, [])
    ∧ (RedisQueue.remove "a" ["a", "a"]).2.length ≠
        (["a", "a"] : List String).length - 1 := by
  constructor <;> decide

/-- C6 amended: `RedisQueue.remove(payload)` removes every occurrence of a
matching payload from the queue (returning how many were removed), leaves
all non-matching payloads untouched, and is a no-op when no matching
payload is present. -/
theorem remove_matching_removes_all (v : String) (q : List String) :
    (RedisQueue.remove v q).1 = q.count v
    ∧ (RedisQueue.remove v q).2.count v = 0
    ∧ (∀ x, x ≠ v → (RedisQueue.remove v q).2.count x = q.count x)
    ∧ (v ∉ q → (RedisQueue.remove v q).2 = q) := by
  refine ⟨?_, ?_, ?_, ?_⟩
  · simp [RedisQueue.remove, lrem, List.count_eq_countP,
      List.countP_eq_length_filter]
  · rw [List.count_eq_zero]
    intro hv
    have := (List.mem_filter.mp hv).2
    simp at this
  · intro x hx
    simp only [RedisQueue.remove, lrem, List.count_eq_countP]
    rw [List.countP_filter]
    refine List.countP_congr ?_
    intro a _
    by_cases hax : a = x
    · subst hax
      simp [bne_iff_ne, hx]
    · simp [beq_iff_eq, hax]
  · intro hv
    refine List.filter_eq_self.mpr ?_
    intro a ha
    have : a ≠ v := fun h => hv (h ▸ ha)
    simp [bne_iff_ne, this]

/-- Witness for C6's amended theorem at the queue `["a", "b"]`. -/
theorem remove_matching_removes_all_witness :
    (RedisQueue.remove "a" ["a", "b"]).1 = (["a", "b"] : List String).count "a"
    ∧ (RedisQueue.remove "a" ["a", "b"]).2.count "b" =
        (["a", "b"] : List String).count "b" :=
  ⟨(remove_matching_removes_all "a" ["a", "b"]).1,
   (remove_matching_removes_all "a" ["a", "b"]).2.2.1 "b" (by decide)⟩

/-- C3: the two failure modes of the blocking pop — the timeout elapsing
with no data and the store becoming unreachable during the wait — are both
surfaced as the absent result `none`, and no blocking read ever propagates
an exception to the caller: every outcome yields a normal return value. -/
theorem blocking_read_absorbs_failures :
    RedisBlockingQueue.read .timedOut = .ok none
    ∧ RedisBlockingQueue.read .connectionLost = .ok none
    ∧ ∀ r : BrpopOutcome, ∃ o : Option String, RedisBlockingQueue.read r = .ok o := by
  refine ⟨rfl, rfl, ?_⟩
  intro r
  cases r <;> exact ⟨_, rfl⟩

lemma zrem_count_eq (s : ZSet) (t : Int) :
    (zremrangebyscore s t).1 = (zrangebyscore s t).length := by
  simp [zremrangebyscore, zrangebyscore]

lemma SCHEDULE_POP_LUA_eq (s : ZSet) (t : Int) :
    SCHEDULE_POP_LUA s t =
      (some (zrangebyscore s t), (zremrangebyscore s t).2) := by
  rw [SCHEDULE_POP_LUA]
  simp [zrem_count_eq]

lemma read_eq (ts : PyDatetime) (s : ZSet) :
    RedisSchedule.read ts s =
      (zrangebyscore s (convert_ts ts), (zremrangebyscore s (convert_ts ts)).2) := by
  rw [RedisSchedule.read, SCHEDULE_POP_LUA_eq]
  rfl

lemma zinsert_mem (e a : Int × String) (l : ZSet) :
    a ∈ zinsert e l ↔ a = e ∨ a ∈ l := by
  induction l with
  | nil => simp [zinsert]
  | cons x xs ih =>
      rw [zinsert]
      split
      · simp [List.mem_cons]
      · rw [List.mem_cons, ih, List.mem_cons]
        tauto

lemma zinsert_perm (e : Int × String) (l : ZSet) :
    List.Perm (zinsert e l) (e :: l) := by
  induction l with
  | nil => exact List.Perm.refl _
  | cons x xs ih =>
      rw [zinsert]
      split
      · exact List.Perm.refl _
      · exact (ih.cons x).trans (List.Perm.swap e x xs)

lemma zadd_mem (s : ZSet) (m : String) (sc : Int) (a : Int × String) :
    a ∈ zadd s m sc ↔ a = (sc, m) ∨ (a ∈ s ∧ a.2 ≠ m) := by
  rw [zadd, zinsert_mem]
  simp [List.mem_filter]

lemma zadd_members_perm (s : ZSet) (m : String) (sc : Int)
    (hm : m ∉ s.map Prod.snd) :
    List.Perm ((zadd s m sc).map Prod.snd) (m :: s.map Prod.snd) := by
  have hf : List.filter (fun e => e.2 != m) s = s := by
    refine List.filter_eq_self.mpr ?_
    intro a ha
    have : a.2 ≠ m := fun hh => hm (hh ▸ List.mem_map_of_mem Prod.snd ha)
    simpa using this
  rw [zadd, hf]
  simpa using (zinsert_perm (sc, m) s).map Prod.snd

lemma schedState_go (items : List (String × PyDatetime)) :
    ∀ s : ZSet, (items.map Prod.fst ++ s.map Prod.snd).Nodup →
    ((items.foldl (fun acc it => RedisSchedule.add acc it.1 it.2) s).map
        Prod.snd).Nodup
    ∧ ∀ sc d,
        (sc, d) ∈ items.foldl (fun acc it => RedisSchedule.add acc it.1 it.2) s ↔
          ((sc, d) ∈ s ∨ ∃ t, (d, t) ∈ items ∧ sc = convert_ts t) := by
  induction items with
  | nil =>
      intro s h
      refine ⟨by simpa using h, ?_⟩
      intro sc d
      simp
  | cons it rest ih =>
      intro s h
      obtain ⟨d₀, t₀⟩ := it
      have h' : (d₀ :: (rest.map Prod.fst ++ s.map Prod.snd)).Nodup := by
        simpa using h
      have hd₀ : d₀ ∉ rest.map Prod.fst ++ s.map Prod.snd :=
        (List.nodup_cons.mp h').1
      have hd₀s : d₀ ∉ s.map Prod.snd := fun hh =>
        hd₀ (List.mem_append_right _ hh)
      have hperm : List.Perm ((zadd s d₀ (convert_ts t₀)).map Prod.snd)
          (d₀ :: s.map Prod.snd) := zadd_members_perm s d₀ (convert_ts t₀) hd₀s
      have hmid : List.Perm (rest.map Prod.fst ++ d₀ :: s.map Prod.snd)
          (d₀ :: (rest.map Prod.fst ++ s.map Prod.snd)) := List.perm_middle
      have hnodup1 :
          (rest.map Prod.fst ++ (zadd s d₀ (convert_ts t₀)).map Prod.snd).Nodup := by
        have h1 : (rest.map Prod.fst ++ d₀ :: s.map Prod.snd).Nodup :=
          hmid.symm.nodup h'
        exact ((hperm.append_left (rest.map Prod.fst)).symm).nodup h1
      have hrec := ih (zadd s d₀ (convert_ts t₀)) hnodup1
      have hfold :
          ((d₀, t₀) :: rest).foldl
              (fun acc it => RedisSchedule.add acc it.1 it.2) s =
            rest.foldl (fun acc it => RedisSchedule.add acc it.1 it.2)
              (zadd s d₀ (convert_ts t₀)) := rfl
      refine ⟨by rw [hfold]; exact hrec.1, ?_⟩
      intro sc d
      rw [hfold, hrec.2 sc d, zadd_mem]
      constructor
      · rintro ((heq | ⟨hmem, hne⟩) | ⟨t, htmem, hts⟩)
        · have h1 : sc = convert_ts t₀ := congrArg Prod.fst heq
          have h2 : d = d₀ := congrArg Prod.snd heq
          exact Or.inr ⟨t₀, by simp [h2], h1⟩
        · exact Or.inl hmem
        · exact Or.inr ⟨t, List.mem_cons_of_mem _ htmem, hts⟩
      · rintro (hmem | ⟨t, htmem, hts⟩)
        · have hne : d ≠ d₀ := by
            intro hh
            exact hd₀s (hh ▸ List.mem_map_of_mem Prod.snd hmem)
          exact Or.inl (Or.inr ⟨hmem, hne⟩)
        · rcases List.mem_cons.mp htmem with heq | hmemr
          · have h1 : d = d₀ := congrArg Prod.fst heq
            have h2 : t = t₀ := congrArg Prod.snd heq
            exact Or.inl (Or.inl (by rw [hts, h1, h2]))
          · exact Or.inr ⟨t, hmemr, hts⟩

lemma schedState_mem (items : List (String × PyDatetime))
    (h : (items.map Prod.fst).Nodup) :
    ((schedState items).map Prod.snd).Nodup
    ∧ ∀ sc d, (sc, d) ∈ schedState items ↔
        ∃ t, (d, t) ∈ items ∧ sc = convert_ts t := by
  have hg := schedState_go items [] (by simpa using h)
  refine ⟨hg.1, ?_⟩
  intro sc d
  simpa using hg.2 sc d

lemma read_twice_empty (ts : PyDatetime) (s : ZSet) :
    (RedisSchedule.read ts ((RedisSchedule.read ts s).2)).1 = [] := by
  rw [read_eq, read_eq]
  simp only [zremrangebyscore, zrangebyscore]
  rw [List.map_eq_nil_iff]
  refine List.filter_eq_nil_iff.mpr ?_
  intro a ha
  have := (List.mem_filter.mp ha).2
  simp at this
  simp [this]

/-- C1: the schedule pop is the atomic Lua script: it performs the range
query collecting every member with score ≤ the cutoff, then the range
deletion over the same bound; the deleted count equals the collected
count, so the collected items are returned (the script's condition), and
`RedisSchedule.read` unwraps the script result, mapping a `nil` result to
the empty sequence rather than an error. -/
theorem schedule_pop_atomic (s : ZSet) (ts : PyDatetime) :
    (∀ d, d ∈ zrangebyscore s (convert_ts ts) ↔
        ∃ sc, (sc, d) ∈ s ∧ sc ≤ convert_ts ts)
    ∧ (zremrangebyscore s (convert_ts ts)).1 =
        (zrangebyscore s (convert_ts ts)).length
    ∧ SCHEDULE_POP_LUA s (convert_ts ts) =
        (some (zrangebyscore s (convert_ts ts)),
         (zremrangebyscore s (convert_ts ts)).2)
    ∧ RedisSchedule.read ts s =
        (pyNoneToEmptyList (SCHEDULE_POP_LUA s (convert_ts ts)).1,
         (SCHEDULE_POP_LUA s (convert_ts ts)).2)
    ∧ pyNoneToEmptyList none = [] := by
  refine ⟨?_, zrem_count_eq s (convert_ts ts), SCHEDULE_POP_LUA_eq s (convert_ts ts),
    rfl, rfl⟩
  intro d
  simp only [zrangebyscore, List.mem_map, List.mem_filter, decide_eq_true_eq]
  constructor
  · rintro ⟨⟨sc, d'⟩, ⟨hmem, hle⟩, rfl⟩
    exact ⟨sc, hmem, hle⟩
  · rintro ⟨sc, hmem, hle⟩
    exact ⟨(sc, d), ⟨hmem, hle⟩, rfl⟩

/-- C2 counterexample: two items with the same payload `a` and distinct
due-timestamps 1 and 2 (both ≤ 10) are added; the second `ZADD` replaces
the first, so `read(10)` returns `a` once, and a repeated `read(10)`
returns nothing — the two due items are not each returned once in
aggregate (only one result for two items). -/
theorem schedule_same_payload_counterexample :
    (RedisSchedule.read ⟨10, 0⟩ (schedState [("a", ⟨1, 0⟩), ("a", ⟨2, 0⟩)])).1 = ["a"]
    ∧ (RedisSchedule.read ⟨10, 0⟩
        ((RedisSchedule.read ⟨10, 0⟩
          (schedState [("a", ⟨1, 0⟩), ("a", ⟨2, 0⟩)])).2)).1 = []
    ∧ [("a", (⟨1, 0⟩ : PyDatetime)), ("a", ⟨2, 0⟩)].length = 2 := by
  refine ⟨by decide, by decide, rfl⟩

/-- C2 amended: for every set of items with pairwise-distinct payloads
added to a Schedule, a single-caller sequence of `read(T)` calls returns
each item whose converted due-timestamp is ≤ `convert_ts T` exactly once
in aggregate (the first read returns all of them, each once, and later
reads add nothing), never returns an item whose converted due-timestamp
is > `convert_ts T`, and a repeated `read(T)` after all due items were
returned yields the empty sequence. -/
theorem schedule_read_due_exactly_once (items : List (String × PyDatetime))
    (T : PyDatetime) (h : (items.map Prod.fst).Nodup) :
    (∀ d t, (d, t) ∈ items → convert_ts t ≤ convert_ts T →
        d ∈ (RedisSchedule.read T (schedState items)).1)
    ∧ (RedisSchedule.read T (schedState items)).1.Nodup
    ∧ (∀ d, d ∈ (RedisSchedule.read T (schedState items)).1 →
        ∃ t, (d, t) ∈ items ∧ convert_ts t ≤ convert_ts T)
    ∧ (RedisSchedule.read T ((RedisSchedule.read T (schedState items)).2)).1 = [] := by
  obtain ⟨hnd, hmem⟩ := schedState_mem items h
  refine ⟨?_, ?_, ?_, read_twice_empty T (schedState items)⟩
  · intro d t ht hle
    rw [read_eq]
    have : (convert_ts t, d) ∈ schedState items := (hmem _ d).mpr ⟨t, ht, rfl⟩
    simp only [zrangebyscore, List.mem_map]
    exact ⟨(convert_ts t, d), List.mem_filter.mpr ⟨this, by simpa using hle⟩, rfl⟩
  · rw [read_eq]
    have hsub : ((schedState items).filter
        (fun e => e.1 ≤ convert_ts T)).map Prod.snd |>.Sublist
          ((schedState items).map Prod.snd) :=
      (List.filter_sublist _).map Prod.snd
    exact hnd.sublist hsub
  · intro d hd
    rw [read_eq] at hd
    simp only [zrangebyscore, List.mem_map] at hd
    obtain ⟨⟨sc, d'⟩, hf, rfl⟩ := hd
    obtain ⟨hmem', hle⟩ := List.mem_filter.mp hf
    obtain ⟨t, ht, hts⟩ := (hmem sc d').mp hmem'
    exact ⟨t, ht, by rw [← hts]; simpa using hle⟩

/-- Witness for C2's amended theorem: items `a` due at 600 and `b` due at
900 with cutoff 660; `a` is returned by the first read, which is
duplicate-free, and the read after it returns nothing. -/
theorem schedule_read_due_exactly_once_witness :
    "a" ∈ (RedisSchedule.read ⟨660, 0⟩
        (schedState [("a", ⟨600, 0⟩), ("b", ⟨900, 0⟩)])).1
    ∧ (RedisSchedule.read ⟨660, 0⟩
        (schedState [("a", ⟨600, 0⟩), ("b", ⟨900, 0⟩)])).1.Nodup
    ∧ (RedisSchedule.read ⟨660, 0⟩
        ((RedisSchedule.read ⟨660, 0⟩
          (schedState [("a", ⟨600, 0⟩), ("b", ⟨900, 0⟩)])).2)).1 = [] :=
  ⟨(schedule_read_due_exactly_once [("a", ⟨600, 0⟩), ("b", ⟨900, 0⟩)] ⟨660, 0⟩
      (by decide)).1 "a" ⟨600, 0⟩ (by decide) (by decide),
   (schedule_read_due_exactly_once [("a", ⟨600, 0⟩), ("b", ⟨900, 0⟩)] ⟨660, 0⟩
      (by decide)).2.1,
   (schedule_read_due_exactly_once [("a", ⟨600, 0⟩), ("b", ⟨900, 0⟩)] ⟨660, 0⟩
      (by decide)).2.2.2⟩

/-- C7: after `put(k, v)`, `peek(k)` returns `v` (and, being a pure
query, leaves the entry present: `get` still finds it), a subsequent
`get(k)` returns `v` and deletes the entry, and a second `get(k)` returns
the `EmptyData` marker and leaves the store unchanged: `get` is
destructive exactly when a real value is found. -/
theorem datastore_put_peek_get (h : Hash) (k v : String) :
    RedisDataStore.peek (RedisDataStore.put h k v) k = some v
    ∧ (RedisDataStore.get (RedisDataStore.put h k v) k).1 = some v
    ∧ (RedisDataStore.get (RedisDataStore.put h k v) k).2 k = none
    ∧ (RedisDataStore.get ((RedisDataStore.get (RedisDataStore.put h k v) k).2) k).1 = none
    ∧ (RedisDataStore.get ((RedisDataStore.get (RedisDataStore.put h k v) k).2) k).2 =
        (RedisDataStore.get (RedisDataStore.put h k v) k).2 := by
  simp [RedisDataStore.peek, RedisDataStore.put, RedisDataStore.get,
    hset, hget, hexists, hdel]

/-- C8: the `EmptyData` marker is distinguishable from every real stored
value, including an empty one: after `put(k, "")`, `peek(k)` returns the
empty payload `some ""` and not the marker, while `peek` on a never-set
key or on an already-consumed key returns the marker. -/
theorem datastore_empty_marker (h : Hash) (k v : String) :
    RedisDataStore.peek (RedisDataStore.put h k "") k = some ""
    ∧ some "" ≠ (none : Option String)
    ∧ RedisDataStore.peek emptyHash k = none
    ∧ RedisDataStore.peek ((RedisDataStore.get (RedisDataStore.put h k v) k).2) k = none := by
  refine ⟨?_, by simp, ?_, ?_⟩ <;>
    simp [RedisDataStore.peek, RedisDataStore.put, RedisDataStore.get,
      emptyHash, hset, hget, hexists, hdel]
